import Mathlib

/-!
Verification of the media-to-prompt pipeline of src/app.py.

The Python functions are embedded shallowly: machine-level details are
irrelevant here (small integers, strings), so integers become Nat/Int,
Python floats coming from the media probe become rationals, strings become
List Char, and the filesystem becomes an explicit lookup structure.
-/

namespace VideoToArticle

/-- Python int() applied to a rational (durations from the probe are
rationals here): truncation toward zero. -/
def pyInt (q : ℚ) : ℤ := if 0 ≤ q then ⌊q⌋ else ⌈q⌉

/-- Python range(0, stop, step) for positive step, as a list of integers:
0, step, 2*step, ... strictly below stop. -/
def pyRange (stop : ℤ) (step : ℕ) : List ℤ :=
  if stop ≤ 0 then []
  else (List.range ((stop - 1).toNat / step + 1)).map (fun k => ((k * step : ℕ) : ℤ))

/-- Fuel-driven helper for decimal digit extraction (structural recursion so
that the kernel can evaluate it). -/
def natDecRevAux : ℕ → ℕ → List Char
  | 0, _ => []
  | fuel + 1, n =>
    if n < 10 then [Char.ofNat (n + 48)]
    else Char.ofNat (n % 10 + 48) :: natDecRevAux fuel (n / 10)

/-- Little-endian list of decimal digit characters of a natural number. -/
def natDecRev (n : ℕ) : List Char := natDecRevAux (n + 1) n

/-- Decimal rendering of a natural number (Python str). -/
def natDec (n : ℕ) : List Char := (natDecRev n).reverse

/-- Decimal rendering of an integer (Python str). -/
def intDec (z : ℤ) : List Char :=
  if z < 0 then '-' :: natDec z.natAbs else natDec z.toNat

/-- Python format specifier 04d for a natural number: left-pad the decimal
rendering with zeros to width 4. -/
def pad4 (n : ℕ) : List Char :=
  List.replicate (4 - (natDec n).length) '0' ++ natDec n

/-- os.path.join for two POSIX path components: an absolute second argument
replaces the first, otherwise the parts are joined with a single slash. -/
def pyJoin (a b : List Char) : List Char :=
  match b with
  | '/' :: _ => b
  | _ =>
    if a = [] then b
    else if a.getLast? = some '/' then a ++ b
    else a ++ '/' :: b

/-- The dict appended for each frame in extract_frames. -/
structure FrameRecord where
  index : ℕ
  timestamp : ℤ
  filename : List Char
  path : List Char
deriving Repr, DecidableEq

/-- The f-string frame_{i:04d}_{ts}s.jpg. -/
def mkFrameFilename (i : ℕ) (ts : ℤ) : List Char :=
  ("frame_".data) ++ pad4 i ++ ('_' :: intDec ts) ++ ("s.jpg".data)

/-- The timestamp sequence of extract_frames:
timestamps = list(range(0, int(duration), interval));
if int(duration) not in timestamps: timestamps.append(int(duration) - 1). -/
def extractTimestamps (duration : ℚ) (interval : ℕ) : List ℤ :=
  let ts := pyRange (pyInt duration) interval
  if pyInt duration ∈ ts then ts else ts ++ [pyInt duration - 1]

/-- extract_frames(video_path, output_dir, interval): the returned list of
frame records. The probed duration (an external ffprobe call in the source)
is a parameter. -/
def extractFrames (duration : ℚ) (outputDir : List Char) (interval : ℕ) :
    List FrameRecord :=
  let framesDir := pyJoin outputDir ("frames".data)
  (extractTimestamps duration interval).enum.map (fun p =>
    { index := p.1, timestamp := p.2,
      filename := mkFrameFilename p.1 p.2,
      path := pyJoin framesDir (mkFrameFilename p.1 p.2) })

/-- The ffmpeg single-frame extraction command run for one timestamp
(list of argv strings). -/
def frameCmd (videoPath : List Char) (ts : ℤ) (framePath : List Char) :
    List (List Char) :=
  [("ffmpeg".data), ("-i".data), videoPath, ("-ss".data), intDec ts,
   ("-frames:v".data), ("1".data), ("-q:v".data), ("2".data), ("-y".data),
   framePath]

/-- Evaluate a list of decimal digit characters, most significant first. -/
def decValue (cs : List Char) : ℕ :=
  cs.foldl (fun a c => 10 * a + (c.toNat - 48)) 0

/-- Recover the frame index from a frame filename: the digit block after
the six-character prefix, up to the separator. -/
def frameFilenameIdx (cs : List Char) : ℕ :=
  decValue ((cs.drop 6).takeWhile (fun c => c != '_'))

/-- Python str.strip whitespace set. -/
def isPySpace (c : Char) : Bool :=
  c = ' ' || c = '\t' || c = '\n' || c = '\r' ||
    c = Char.ofNat 11 || c = Char.ofNat 12

/-- Python str.strip(): drop whitespace at both ends. -/
def pyStrip (cs : List Char) : List Char :=
  ((cs.dropWhile isPySpace).reverse.dropWhile isPySpace).reverse

/-- Python s.split for the newline separator: all pieces, empty ones kept. -/
def splitNL : List Char → List (List Char)
  | [] => [[]]
  | c :: rest =>
    if c = '\n' then [] :: splitNL rest
    else
      match splitNL rest with
      | [] => [[c]]
      | p :: ps => (c :: p) :: ps

/-- The newline join used to reassemble the de-fenced response. -/
def joinNL : List (List Char) → List Char
  | [] => []
  | [l] => l
  | l :: ls => l ++ '\n' :: joinNL ls

/-- The opening token of a Markdown code fence. -/
def fenceTok : List Char := ("```").data

/-- The response post-processing in transcribe_audio_gemini: strip
surrounding whitespace; if the result opens with a code fence, delete every
line whose stripped form starts with the fence token and rejoin the rest. -/
def processResponse (responseText : List Char) : List Char :=
  let t := pyStrip responseText
  if fenceTok.isPrefixOf t then
    joinNL ((splitNL t).filter (fun l => ! fenceTok.isPrefixOf (pyStrip l)))
  else t

structure TranscriptSegment where
  start : ℚ
  end_ : ℚ
  text : List Char
deriving Repr, DecidableEq

structure Transcript where
  full_text : List Char
  segments : List TranscriptSegment
deriving Repr, DecidableEq

/-- Return value of transcribe_audio_gemini: either whatever JSON value the
parser produced, or the fallback dict built on parse failure. -/
inductive TranscriptionResult (J : Type) where
  | parsed (value : J)
  | fallback (t : Transcript)
deriving Repr, DecidableEq

/-- transcribe_audio_gemini from the point where the service response text
is in hand; json.loads is the external parser, passed as a parameter. -/
def transcribeResponse {J : Type} (jsonLoads : List Char → Option J)
    (responseText : List Char) : TranscriptionResult J :=
  let t := processResponse responseText
  match jsonLoads t with
  | some v => .parsed v
  | none =>
    .fallback { full_text := t,
                segments := [{ start := 0, end_ := 0, text := t }] }

/-- Modelled from the spec: a pure fence delimiter line, i.e. one whose
stripped form is exactly the fence token. Used only to compare the claimed
fence-stripping rule with the one in the source. -/
def pureFenceLine (l : List Char) : Bool := pyStrip l == fenceTok

/-- Modelled from the spec: fence stripping that removes only the lines
that are pure fence delimiters. -/
def processResponseSpec (responseText : List Char) : List Char :=
  let t := pyStrip responseText
  if fenceTok.isPrefixOf t then
    joinNL ((splitNL t).filter (fun l => ! pureFenceLine l))
  else t

/-- Abstract filesystem seen by the renderer: existence and byte content of
paths. -/
structure FS where
  pathExists : List Char → Bool
  content : List Char → List ℕ

/-- The base64 alphabet. -/
def b64Alphabet : List Char :=
  ("ABCDEFGHIJKLMNOPQRSTUVWXYZabcdefghijklmnopqrstuvwxyz0123456789+/").data

def b64Char (n : ℕ) : Char := b64Alphabet.getD n 'A'

/-- Standard base64 of a byte list with padding, as base64.b64encode
produces. -/
def b64encode : List ℕ → List Char
  | [] => []
  | [a] => [b64Char (a / 4), b64Char (a % 4 * 16), '=', '=']
  | [a, b] =>
    [b64Char (a / 4), b64Char (a % 4 * 16 + b / 16), b64Char (b % 16 * 4), '=']
  | a :: b :: c :: rest =>
    b64Char (a / 4) :: b64Char (a % 4 * 16 + b / 16) ::
      b64Char (b % 16 * 4 + c / 64) :: b64Char (c % 64) :: b64encode rest

/-- os.path.basename: the part after the last slash. -/
def pyBasename (p : List Char) : List Char :=
  (p.reverse.takeWhile (fun c => c != '/')).reverse

/-- Anchored match of the placeholder pattern (bang, bracketed alt text
without closing brackets, parenthesised path starting with the frames/
prefix and free of closing parentheses) at the head of the character list.
Returns the alt text (group 1), the path part after the frames/ prefix,
and the remaining characters. The character classes exclude their closing
delimiter, so the greedy regex match is this deterministic scan. -/
def matchPlaceholder (cs : List Char) : Option (List Char × List Char × List Char) :=
  match cs with
  | '!' :: '[' :: rest =>
    (match rest.dropWhile (fun c => c != ']') with
     | ']' :: '(' :: 'f' :: 'r' :: 'a' :: 'm' :: 'e' :: 's' :: '/' :: r3 =>
       (match r3.dropWhile (fun c => c != ')') with
        | ')' :: r5 =>
          if (r3.takeWhile (fun c => c != ')')).isEmpty then none
          else some (rest.takeWhile (fun c => c != ']'),
                     r3.takeWhile (fun c => c != ')'), r5)
        | _ => none)
     | _ => none)
  | _ => none

/-- The literal text of a placeholder with the given alt text and
path-after-frames. -/
def origPH (alt p : List Char) : List Char :=
  '!' :: '[' :: alt ++ ']' :: '(' :: ("frames/").data ++ p ++ [')']

/-- The path the preview renderer looks up for an image reference:
frames_dir joined with the basename of the referenced path. -/
def resolveFramePath (framesDir imgPath : List Char) : List Char :=
  pyJoin framesDir (pyBasename imgPath)

/-- replace_image_with_base64 from generate_preview_html, applied to a
match with groups alt and frames/<p>: if the resolved file exists, an
inline data-URI image reference with the same alt text; otherwise the
whole match unchanged. -/
def replaceImage (fs : FS) (framesDir alt p : List Char) : List Char :=
  let fullPath := resolveFramePath framesDir (("frames/").data ++ p)
  if fs.pathExists fullPath then
    '!' :: '[' :: alt ++ ']' :: '(' :: ("data:image/jpeg;base64,").data
      ++ b64encode (fs.content fullPath) ++ [')']
  else origPH alt p

/-- One part of the scanned article: a run of non-matching text or one
placeholder match. -/
inductive MdPart where
  | text (s : List Char)
  | ph (alt p : List Char)
deriving Repr, DecidableEq

/-- Left-to-right scan of the article against the placeholder pattern,
fuelled for structural recursion (any fuel at least the list length gives
the scan semantics of the regex engine): the text runs between matches
(possibly empty, as in re.split with a capturing pattern) alternate with
the matches. -/
def scanAux : ℕ → List Char → List Char → List MdPart
  | 0, acc, _ => [MdPart.text acc.reverse]
  | fuel + 1, acc, cs =>
    match cs with
    | [] => [MdPart.text acc.reverse]
    | c :: rest =>
      match matchPlaceholder (c :: rest) with
      | some (alt, p, r) =>
        MdPart.text acc.reverse :: MdPart.ph alt p :: scanAux fuel [] r
      | none => scanAux fuel (c :: acc) rest

/-- The parts of the article, in order: the text runs between matches and
the placeholder matches. -/
def scanArticle (cs : List Char) : List MdPart := scanAux cs.length [] cs

/-- The regex substitution of generate_preview_html: leftmost
non-overlapping matches of the placeholder pattern, each replaced by
replace_image_with_base64. -/
def reSubAux (fs : FS) (framesDir : List Char) : ℕ → List Char → List Char
  | 0, _ => []
  | fuel + 1, cs =>
    match cs with
    | [] => []
    | c :: rest =>
      match matchPlaceholder (c :: rest) with
      | some (alt, p, r) =>
        replaceImage fs framesDir alt p ++ reSubAux fs framesDir fuel r
      | none => c :: reSubAux fs framesDir fuel rest

/-- The Markdown produced by the substitution step of
generate_preview_html (before the external Markdown-to-HTML conversion
and the fixed document template). -/
def generatePreviewSub (fs : FS) (framesDir article : List Char) : List Char :=
  reSubAux fs framesDir article.length article

/-- How one scanned part reads in the substituted article. -/
def renderPart (fs : FS) (framesDir : List Char) : MdPart → List Char
  | MdPart.text s => s
  | MdPart.ph alt p => replaceImage fs framesDir alt p

/-- How one scanned part reads in the original article. -/
def origPart : MdPart → List Char
  | MdPart.text s => s
  | MdPart.ph alt p => origPH alt p

/-- The re.split of display_article with the capturing placeholder
pattern: the text pieces between matches (possibly empty) alternating with
the matched delimiter strings - the original text of the scanned parts. -/
def reSplitPH (cs : List Char) : List (List Char) :=
  (scanArticle cs).map origPart

/-- re.match of the display pattern against one part: anchored at the
start; group 2 here is the path after the frames/ prefix. -/
def pyMatchImage (part : List Char) : Option (List Char × List Char) :=
  match matchPlaceholder part with
  | some (alt, p, _) => some (alt, p)
  | none => none

/-- One displayed chunk: markdown text or an st.image call with path and
caption. -/
inductive Chunk where
  | text (s : List Char)
  | image (path : List Char) (caption : List Char)
deriving Repr, DecidableEq

/-- display_article: split on the placeholder pattern; image parts whose
file exists become image chunks, image parts whose file is missing are
dropped, and text parts are kept when their stripped form is nonempty. -/
def displayArticle (fs : FS) (framesDir article : List Char) : List Chunk :=
  (reSplitPH article).flatMap (fun part =>
    match pyMatchImage part with
    | some (alt, fname) =>
      if fs.pathExists (pyJoin framesDir fname) then
        [Chunk.image (pyJoin framesDir fname) alt]
      else []
    | none => if pyStrip part = [] then [] else [Chunk.text part])

/-- A concrete filesystem for witnesses: only dir/f.jpg exists, with bytes
1, 2, 3. -/
def fsTest : FS :=
  { pathExists := fun q => q == ("dir/f.jpg").data,
    content := fun q => if q == ("dir/f.jpg").data then [1, 2, 3] else [] }

/-- A concrete article for witnesses: one resolvable and one unresolvable
placeholder. -/
def articleTest : List Char :=
  ("A ![x](frames/f.jpg) B ![y](frames/g.jpg)").data

/-- Path p is the directory d itself or lies underneath it. -/
def isUnder (d p : List Char) : Bool :=
  p == d || (d ++ ['/']).isPrefixOf p

/-- shutil.rmtree with ignore_errors: remove the directory and everything
under it from the set of existing paths. -/
def rmtree (d : List Char) (s : List (List Char)) : List (List Char) :=
  s.filter (fun p => ! isUnder d p)

/-- The convert-button handler of the convert tab, over an explicit
filesystem state (the list of existing paths): mkdtemp creates the
temporary directory, the uploaded video and the output directory are
written under it, the pipeline stages (audio extraction, frame
extraction, transcription, article generation, result display) run inside
try/except as an arbitrary state transformer that may also report an
error, and the finally block removes the temporary directory tree in
either case. -/
def runConvert (tmpDir videoName : List Char)
    (pipeline : List (List Char) → List (List Char) × Option (List Char))
    (s0 : List (List Char)) : List (List Char) :=
  let s1 := tmpDir :: pyJoin tmpDir videoName
    :: pyJoin tmpDir (("output").data) :: s0
  let s2 := (pipeline s1).1
  rmtree tmpDir s2

theorem mem_pyRange_iff {stop : ℤ} {step : ℕ} (hstop : 1 ≤ stop) {x : ℤ} :
    x ∈ pyRange stop step ↔
      ∃ k : ℕ, k ≤ (stop - 1).toNat / step ∧ x = ((k * step : ℕ) : ℤ) := by
  unfold pyRange
  rw [if_neg (by omega)]
  simp [List.mem_map, List.mem_range, Nat.lt_succ_iff, eq_comm]

theorem pyRange_nonneg_lt {stop : ℤ} {step : ℕ} (_hstep : 1 ≤ step) {x : ℤ}
    (hx : x ∈ pyRange stop step) : 0 ≤ x ∧ x < stop := by
  by_cases h0 : stop ≤ 0
  · unfold pyRange at hx
    rw [if_pos h0] at hx
    exact absurd hx (List.not_mem_nil x)
  · rw [mem_pyRange_iff (by omega)] at hx
    obtain ⟨k, hk, rfl⟩ := hx
    have h1 : k * step ≤ ((stop - 1).toNat / step) * step :=
      Nat.mul_le_mul_right _ hk
    have h2 : ((stop - 1).toNat / step) * step ≤ (stop - 1).toNat :=
      Nat.div_mul_le_self _ _
    have h3 : k * step ≤ (stop - 1).toNat := le_trans h1 h2
    omega

theorem stop_not_mem_pyRange {stop : ℤ} {step : ℕ} (hstep : 1 ≤ step) :
    stop ∉ pyRange stop step := by
  intro h
  exact absurd (pyRange_nonneg_lt hstep h).2 (lt_irrefl _)

/-- The branch appending int(duration) - 1 is always taken: the value the
source tests for membership, int(duration), is never an element of
range(0, int(duration), interval). -/
theorem extractTimestamps_eq (D : ℚ) (I : ℕ) (hI : 1 ≤ I) :
    extractTimestamps D I = pyRange (pyInt D) I ++ [pyInt D - 1] := by
  unfold extractTimestamps
  rw [if_neg (stop_not_mem_pyRange hI)]

theorem pyRange_nodup (stop : ℤ) {step : ℕ} (hstep : 1 ≤ step) :
    (pyRange stop step).Nodup := by
  unfold pyRange
  split
  · exact List.nodup_nil
  · refine List.Nodup.map ?_ (List.nodup_range _)
    intro a b hab
    simp only at hab
    have hab' : a * step = b * step := by exact_mod_cast hab
    exact Nat.eq_of_mul_eq_mul_right (by omega) hab'

theorem sub_one_mem_pyRange_iff {n : ℤ} {I : ℕ} (hn : 1 ≤ n) (hI : 1 ≤ I) :
    (n - 1) ∈ pyRange n I ↔ (I : ℤ) ∣ (n - 1) := by
  rw [mem_pyRange_iff hn]
  constructor
  · rintro ⟨k, _, hx⟩
    exact ⟨k, by push_cast [hx]; ring⟩
  · rintro ⟨c, hc⟩
    have hc0 : 0 ≤ c := by
      rcases lt_or_ge c 0 with h | h
      · have := mul_neg_of_pos_of_neg (show (0:ℤ) < I by exact_mod_cast hI) h
        omega
      · exact h
    have hcast : ((c.toNat * I : ℕ) : ℤ) = n - 1 := by
      push_cast [Int.toNat_of_nonneg hc0]
      linarith [hc]
    refine ⟨c.toNat, ?_, hcast.symm⟩
    rw [Nat.le_div_iff_mul_le (by omega)]
    omega

theorem pyInt_pos_of_one_le {D : ℚ} (hD : 1 ≤ D) : 1 ≤ pyInt D := by
  unfold pyInt
  rw [if_pos (by linarith)]
  exact Int.le_floor.mpr (by exact_mod_cast hD)

/-- Claim C1 (amended): for duration D ≥ 1 and interval I ≥ 1 the timestamp
sequence is 0, I, 2I, ... strictly below floor(D), with floor(D) - 1
appended unconditionally (the membership test in the source checks
floor(D) itself, which is never in the range). The sequence always contains
floor(D) - 1, and it is duplicate-free exactly when I does not divide
floor(D) - 1. -/
theorem extractTimestamps_amended (D : ℚ) (I : ℕ) (hD : 1 ≤ D) (hI : 1 ≤ I) :
    extractTimestamps D I = pyRange (pyInt D) I ++ [pyInt D - 1] ∧
    (pyInt D - 1) ∈ extractTimestamps D I ∧
    ((extractTimestamps D I).Nodup ↔ ¬ ((I : ℤ) ∣ (pyInt D - 1))) := by
  have hn : 1 ≤ pyInt D := pyInt_pos_of_one_le hD
  have heq := extractTimestamps_eq D I hI
  refine ⟨heq, ?_, ?_⟩
  · rw [heq]
    exact List.mem_append_right _ (List.mem_singleton_self _)
  · rw [heq, List.nodup_append]
    have hnd := pyRange_nodup (pyInt D) hI
    have hmem := sub_one_mem_pyRange_iff hn hI
    constructor
    · rintro ⟨_, _, hdisj⟩ hdvd
      exact hdisj (hmem.mpr hdvd) (List.mem_singleton_self _)
    · intro hdvd
      refine ⟨hnd, List.nodup_singleton _, ?_⟩
      intro x hx hx1
      rw [List.mem_singleton] at hx1
      subst hx1
      exact hdvd (hmem.mp hx)

/-- Claim C1 counterexample: for duration 11 and interval 10 the produced
timestamp sequence is 0, 10, 10 - the timestamp 10 = floor(11) - 1 is
appended even though it is already present, so the sequence has a
duplicate, contradicting the claimed only-if-absent append and
duplicate-freedom. -/
theorem extractTimestamps_dup_counterexample :
    extractTimestamps 11 10 = [0, 10, 10] ∧
    ¬ (extractTimestamps 11 10).Nodup := by decide

/-- Witness: the amended C1 theorem applied at duration 65, interval 10. -/
theorem extractTimestamps_amended_witness :
    extractTimestamps 65 10 = pyRange (pyInt 65) 10 ++ [pyInt 65 - 1] ∧
    (pyInt 65 - 1) ∈ extractTimestamps 65 10 ∧
    ((extractTimestamps 65 10).Nodup ↔ ¬ ((10 : ℤ) ∣ (pyInt 65 - 1))) :=
  extractTimestamps_amended 65 10 (by norm_num) (by norm_num)

theorem digitChar_toNat {d : ℕ} (hd : d < 10) :
    (Char.ofNat (d + 48)).toNat = d + 48 := by
  interval_cases d <;> decide

theorem natDecRevAux_digits {fuel n : ℕ} {c : Char}
    (hc : c ∈ natDecRevAux fuel n) :
    ∃ d, d < 10 ∧ c = Char.ofNat (d + 48) := by
  induction fuel generalizing n with
  | zero => exact absurd hc (List.not_mem_nil c)
  | succ fuel ih =>
    rw [natDecRevAux] at hc
    split at hc
    · rw [List.mem_singleton] at hc
      exact ⟨n, by omega, hc⟩
    · rcases List.mem_cons.mp hc with h | h
      · exact ⟨n % 10, Nat.mod_lt _ (by omega), h⟩
      · exact ih h

theorem natDecRevAux_foldr {fuel n : ℕ} (h : n < fuel) :
    (natDecRevAux fuel n).foldr (fun c a => 10 * a + (c.toNat - 48)) 0 = n := by
  induction fuel generalizing n with
  | zero => omega
  | succ fuel ih =>
    rw [natDecRevAux]
    split
    next h10 =>
      rw [List.foldr_cons, List.foldr_nil, digitChar_toNat h10]
      omega
    next h10 =>
      have hdiv : n / 10 < fuel :=
        lt_of_lt_of_le (Nat.div_lt_self (by omega) (by omega)) (by omega)
      rw [List.foldr_cons, ih hdiv, digitChar_toNat (Nat.mod_lt _ (by omega))]
      omega

theorem decValue_natDec (n : ℕ) : decValue (natDec n) = n := by
  unfold decValue natDec natDecRev
  rw [List.foldl_reverse]
  exact natDecRevAux_foldr (Nat.lt_succ_self n)

theorem decValue_replicate_zero (k : ℕ) (s : List Char) :
    decValue (List.replicate k '0' ++ s) = decValue s := by
  induction k with
  | zero => rfl
  | succ k ih =>
    unfold decValue at *
    rw [List.replicate_succ, List.cons_append, List.foldl_cons]
    exact ih

theorem decValue_pad4 (n : ℕ) : decValue (pad4 n) = n := by
  unfold pad4
  rw [decValue_replicate_zero, decValue_natDec]

theorem takeWhile_append_cons {α : Type} (p : α → Bool) (l : List α) (c : α)
    (r : List α) (hl : ∀ x ∈ l, p x = true) (hc : p c = false) :
    (l ++ c :: r).takeWhile p = l := by
  induction l with
  | nil => simp [List.takeWhile_cons, hc]
  | cons a l ih =>
    have ha : p a = true := hl a (List.mem_cons_self a l)
    simp only [List.cons_append, List.takeWhile_cons, ha, if_true]
    rw [ih (fun x hx => hl x (List.mem_cons_of_mem a hx))]

theorem pad4_no_underscore (n : ℕ) : ∀ c ∈ pad4 n, (c != '_') = true := by
  intro c hc
  rcases List.mem_append.mp hc with h | h
  · rw [List.eq_of_mem_replicate h]
    decide
  · unfold natDec natDecRev at h
    rw [List.mem_reverse] at h
    obtain ⟨d, hd, rfl⟩ := natDecRevAux_digits h
    rw [bne_iff_ne]
    intro heq
    have h1 := congrArg Char.toNat heq
    rw [digitChar_toNat hd] at h1
    have h2 : ('_').toNat = 95 := rfl
    omega

theorem frameFilenameIdx_mk (i : ℕ) (ts : ℤ) :
    frameFilenameIdx (mkFrameFilename i ts) = i := by
  unfold frameFilenameIdx mkFrameFilename
  have hfr : ("frame_".data) = ['f', 'r', 'a', 'm', 'e', '_'] := rfl
  rw [hfr]
  have hdrop :
      ((['f', 'r', 'a', 'm', 'e', '_'] ++ pad4 i ++ ('_' :: intDec ts) ++
        ("s.jpg".data)).drop 6)
        = pad4 i ++ '_' :: (intDec ts ++ ("s.jpg".data)) := by
    simp [List.append_assoc]
  rw [hdrop,
    takeWhile_append_cons _ _ _ _ (pad4_no_underscore i) (by decide),
    decValue_pad4]

/-- Claim C7: in every run of extract_frames, record index equals position
in the returned sequence (hence strictly increasing), and the filenames are
pairwise distinct. -/
theorem extractFrames_invariants (D : ℚ) (outputDir : List Char) (I : ℕ)
    (_hI : 1 ≤ I) :
    (∀ i (h : i < (extractFrames D outputDir I).length),
        ((extractFrames D outputDir I).get ⟨i, h⟩).index = i) ∧
    ((extractFrames D outputDir I).map FrameRecord.filename).Nodup := by
  constructor
  · intro i h
    rw [List.get_eq_getElem]
    unfold extractFrames
    rw [List.getElem_map, List.getElem_enum]
  · apply List.Nodup.of_map frameFilenameIdx
    unfold extractFrames
    rw [List.map_map, List.map_map]
    have hcomp :
        ((frameFilenameIdx ∘ FrameRecord.filename) ∘ fun p : ℕ × ℤ =>
          ({ index := p.1, timestamp := p.2,
             filename := mkFrameFilename p.1 p.2,
             path := pyJoin (pyJoin outputDir ("frames".data))
               (mkFrameFilename p.1 p.2) } : FrameRecord)) = Prod.fst :=
      funext fun p => frameFilenameIdx_mk p.1 p.2
    rw [hcomp, List.enum_map_fst]
    exact List.nodup_range _

/-- Witness: C7 at duration 65, interval 10. -/
theorem extractFrames_invariants_witness :
    ((extractFrames 65 ("out".data) 10).map FrameRecord.filename).Nodup :=
  (extractFrames_invariants 65 ("out".data) 10 (by norm_num)).2

/-- Claim C5: a 65-second video at interval 10 yields exactly 8 frame
records with timestamps 0, 10, 20, 30, 40, 50, 60, 64 in order. -/
theorem extractFrames_65_10 (outputDir : List Char) :
    (extractFrames 65 outputDir 10).map FrameRecord.timestamp
      = [0, 10, 20, 30, 40, 50, 60, 64] ∧
    (extractFrames 65 outputDir 10).length = 8 := by
  have hts : extractTimestamps 65 10 = [0, 10, 20, 30, 40, 50, 60, 64] := by
    decide
  unfold extractFrames
  rw [hts]
  exact ⟨rfl, rfl⟩

/-- Claim C9: a probed duration below one second produces exactly one frame
record, at timestamp -1, and that offset is the value handed to the ffmpeg
frame-extraction command after the -ss flag. -/
theorem extractFrames_subsecond (D : ℚ) (outputDir videoPath : List Char)
    (I : ℕ) (_hI : 1 ≤ I) (h0 : 0 ≤ D) (h1 : D < 1) :
    extractFrames D outputDir I =
      [{ index := 0, timestamp := -1,
         filename := ("frame_0000_-1s.jpg").data,
         path := pyJoin (pyJoin outputDir ("frames".data))
           (("frame_0000_-1s.jpg").data) }] ∧
    frameCmd videoPath (-1)
        (pyJoin (pyJoin outputDir ("frames".data)) (("frame_0000_-1s.jpg").data))
      = [("ffmpeg".data), ("-i".data), videoPath, ("-ss".data), ("-1".data),
         ("-frames:v".data), ("1".data), ("-q:v".data), ("2".data),
         ("-y".data),
         pyJoin (pyJoin outputDir ("frames".data))
           (("frame_0000_-1s.jpg").data)] := by
  have hfloor : pyInt D = 0 := by
    unfold pyInt
    rw [if_pos h0]
    exact Int.floor_eq_zero_iff.mpr ⟨h0, h1⟩
  have hts : extractTimestamps D I = [-1] := by
    simp [extractTimestamps, hfloor, pyRange]
  have hfn : mkFrameFilename 0 (-1) = ("frame_0000_-1s.jpg").data := by decide
  constructor
  · unfold extractFrames
    rw [hts]
    simp [List.enum, hfn]
  · have hone : intDec (-1) = ("-1").data := by decide
    unfold frameCmd
    rw [hone]

/-- Witness: C9 at duration 1/2, interval 10. -/
theorem extractFrames_subsecond_witness :
    extractFrames (1/2) ("out".data) 10 =
      [{ index := 0, timestamp := -1,
         filename := ("frame_0000_-1s.jpg").data,
         path := pyJoin (pyJoin ("out".data) ("frames".data))
           (("frame_0000_-1s.jpg").data) }] ∧
    frameCmd ("v.mp4".data) (-1)
        (pyJoin (pyJoin ("out".data) ("frames".data))
          (("frame_0000_-1s.jpg").data))
      = [("ffmpeg".data), ("-i".data), ("v.mp4".data), ("-ss".data),
         ("-1").data, ("-frames:v".data), ("1".data), ("-q:v".data),
         ("2".data), ("-y".data),
         pyJoin (pyJoin ("out".data) ("frames".data))
           (("frame_0000_-1s.jpg").data)] :=
  extractFrames_subsecond (1/2) ("out".data) ("v.mp4".data) 10 (by norm_num)
    (by norm_num) (by norm_num)

/-- Claim C2 (amended): when the post-processed response does not parse as
JSON, the result is the fallback transcript: exactly one segment, spanning
0.0 to 0.0, whose text and full_text are both the post-processed (stripped
and de-fenced) response text; no error is raised. -/
theorem transcribeResponse_fallback {J : Type}
    (jsonLoads : List Char → Option J) (responseText : List Char)
    (hfail : jsonLoads (processResponse responseText) = none) :
    ∃ t : Transcript,
      transcribeResponse jsonLoads responseText = .fallback t ∧
      t.segments.length = 1 ∧
      (∀ seg ∈ t.segments, seg.start = 0 ∧ seg.end_ = 0 ∧
        seg.text = processResponse responseText) ∧
      t.full_text = processResponse responseText := by
  refine ⟨{ full_text := processResponse responseText,
            segments := [{ start := 0, end_ := 0,
                           text := processResponse responseText }] },
          ?_, rfl, ?_, rfl⟩
  · unfold transcribeResponse
    simp only []
    rw [hfail]
  · intro seg hseg
    rw [List.mem_singleton] at hseg
    subst hseg
    exact ⟨rfl, rfl, rfl⟩

/-- Witness: C2 amended, on an unparseable plain response. -/
theorem transcribeResponse_fallback_witness :
    ∃ t : Transcript,
      transcribeResponse (fun _ => (none : Option Unit)) (("bogus").data)
        = .fallback t ∧
      t.segments.length = 1 ∧
      (∀ seg ∈ t.segments, seg.start = 0 ∧ seg.end_ = 0 ∧
        seg.text = processResponse (("bogus").data)) ∧
      t.full_text = processResponse (("bogus").data) :=
  transcribeResponse_fallback (fun _ => (none : Option Unit)) (("bogus").data)
    rfl

/-- Claim C2 counterexample: for the fenced unparseable response, the
fallback full_text is the de-fenced text, not the raw response text. -/
theorem transcribeResponse_raw_counterexample :
    transcribeResponse (fun _ => (none : Option Unit))
        (("```\nnot json\n```").data)
      = .fallback { full_text := ("not json").data,
                    segments := [{ start := 0, end_ := 0,
                                   text := ("not json").data }] } ∧
    ("not json").data ≠ ("```\nnot json\n```").data := by
  exact ⟨by decide, by decide⟩

theorem splitNL_ne_nil (cs : List Char) : splitNL cs ≠ [] := by
  cases cs with
  | nil => simp [splitNL]
  | cons c rest =>
    rw [splitNL]
    split
    · simp
    · split <;> simp

theorem splitNL_cons_of {c : Char} {rest p : List Char}
    {ps : List (List Char)} (hc : ¬ c = '\n') (h : splitNL rest = p :: ps) :
    splitNL (c :: rest) = (c :: p) :: ps := by
  rw [splitNL, if_neg hc, h]

theorem splitNL_no_newline {cs : List Char} :
    ∀ l ∈ splitNL cs, ('\n') ∉ l := by
  induction cs with
  | nil =>
    intro l hl
    simp [splitNL] at hl
    subst hl
    exact List.not_mem_nil _
  | cons c rest ih =>
    intro l hl
    by_cases hc : c = '\n'
    · subst hc
      rw [splitNL, if_pos rfl] at hl
      rcases List.mem_cons.mp hl with h | h
      · subst h
        exact List.not_mem_nil _
      · exact ih l h
    · obtain ⟨p, ps, hps⟩ : ∃ p ps, splitNL rest = p :: ps := by
        cases hsp : splitNL rest with
        | nil => exact absurd hsp (splitNL_ne_nil rest)
        | cons p ps => exact ⟨p, ps, rfl⟩
      rw [splitNL_cons_of hc hps] at hl
      rcases List.mem_cons.mp hl with h | h
      · subst h
        intro hmem
        rcases List.mem_cons.mp hmem with h2 | h2
        · exact hc h2.symm
        · have hp : p ∈ splitNL rest := by
            rw [hps]
            exact List.mem_cons_self p ps
          exact ih p hp h2
      · have hlm : l ∈ splitNL rest := by
          rw [hps]
          exact List.mem_cons_of_mem p h
        exact ih l hlm

theorem splitNL_eq_singleton {l : List Char} (h : ('\n') ∉ l) :
    splitNL l = [l] := by
  induction l with
  | nil => rfl
  | cons c rest ih =>
    have hc : ¬ c = '\n' := by
      intro hceq
      apply h
      rw [hceq]
      exact List.mem_cons_self _ _
    have hrest : ('\n') ∉ rest := fun hm => h (List.mem_cons_of_mem c hm)
    rw [splitNL_cons_of hc (ih hrest)]

theorem splitNL_append_newline {l rest : List Char} (h : ('\n') ∉ l) :
    splitNL (l ++ '\n' :: rest) = l :: splitNL rest := by
  induction l with
  | nil =>
    simp only [List.nil_append]
    rw [splitNL, if_pos rfl]
  | cons c t ih =>
    have hc : ¬ c = '\n' := by
      intro hceq
      apply h
      rw [hceq]
      exact List.mem_cons_self _ _
    have ht : ('\n') ∉ t := fun hm => h (List.mem_cons_of_mem c hm)
    rw [List.cons_append, splitNL_cons_of hc (ih ht)]

theorem splitNL_joinNL {ls : List (List Char)} (hne : ls ≠ [])
    (h : ∀ l ∈ ls, ('\n') ∉ l) : splitNL (joinNL ls) = ls := by
  induction ls with
  | nil => exact absurd rfl hne
  | cons l ls ih =>
    cases ls with
    | nil => exact splitNL_eq_singleton (h l (List.mem_cons_self _ _))
    | cons l2 ls2 =>
      show splitNL (l ++ '\n' :: joinNL (l2 :: ls2)) = l :: l2 :: ls2
      rw [splitNL_append_newline (h l (List.mem_cons_self _ _))]
      rw [ih (by simp) (fun x hx => h x (List.mem_cons_of_mem _ hx))]

/-- Claim C6 counterexample: on a fenced response containing the line
three-backticks-space-keep, which is not a pure fence delimiter, the source
removes that line too, so it differs from the claimed pure-delimiter-only
removal. -/
theorem processResponse_fence_counterexample :
    processResponse (("```\n``` keep\nx").data) = ("x").data ∧
    processResponseSpec (("```\n``` keep\nx").data) = ("``` keep\nx").data ∧
    processResponse (("```\n``` keep\nx").data)
      ≠ processResponseSpec (("```\n``` keep\nx").data) := by
  exact ⟨by decide, by decide, by decide⟩

/-- Claim C6 (amended): if the stripped response opens with the fence
token, the lines of the processed response are exactly the lines of the
stripped response whose own stripped form does not open with the fence
token, in order (stated when at least one line remains), and in particular
no fence-opening line survives; a response not opening with the fence token
is passed on unmodified apart from the surrounding whitespace strip. -/
theorem processResponse_amended (s : List Char) :
    (fenceTok.isPrefixOf (pyStrip s) = true →
      ∀ p ps, (splitNL (pyStrip s)).filter
          (fun l => ! fenceTok.isPrefixOf (pyStrip l)) = p :: ps →
        splitNL (processResponse s) = p :: ps ∧
        ∀ l ∈ splitNL (processResponse s),
          fenceTok.isPrefixOf (pyStrip l) = false) ∧
    (fenceTok.isPrefixOf (pyStrip s) = false →
      processResponse s = pyStrip s) := by
  constructor
  · intro hfence p ps hfilter
    have hproc : processResponse s
        = joinNL ((splitNL (pyStrip s)).filter
            (fun l => ! fenceTok.isPrefixOf (pyStrip l))) := by
      unfold processResponse
      rw [if_pos hfence]
    have hsplit : splitNL (processResponse s) = p :: ps := by
      rw [hproc, hfilter]
      refine splitNL_joinNL (by simp) ?_
      intro l hl
      have hl2 : l ∈ (splitNL (pyStrip s)).filter
          (fun l => ! fenceTok.isPrefixOf (pyStrip l)) := by
        rw [hfilter]
        exact hl
      exact splitNL_no_newline l (List.mem_of_mem_filter hl2)
    refine ⟨hsplit, ?_⟩
    intro l hl
    rw [hsplit, ← hfilter] at hl
    have := List.of_mem_filter hl
    simpa using this
  · intro hfence
    unfold processResponse
    rw [if_neg (by simp [hfence])]

/-- Witness: C6 amended, on a fenced response and on a plain response. -/
theorem processResponse_amended_witness :
    splitNL (processResponse (("```\nab\n```").data)) = [("ab").data] ∧
    processResponse ((" plain ").data) = ("plain").data := by
  constructor
  · exact ((processResponse_amended (("```\nab\n```").data)).1 (by decide)
      (("ab").data) [] (by decide)).1
  · exact (processResponse_amended ((" plain ").data)).2 (by decide)

theorem matchPlaceholder_some {cs alt p r : List Char}
    (h : matchPlaceholder cs = some (alt, p, r)) :
    cs = origPH alt p ++ r ∧ (∀ c ∈ alt, (c != ']') = true) ∧
      (∀ c ∈ p, (c != ')') = true) ∧ p ≠ [] := by
  unfold matchPlaceholder at h
  split at h <;> try exact Option.noConfusion h
  next rest =>
    split at h <;> try exact Option.noConfusion h
    next r3 heq =>
      split at h <;> try exact Option.noConfusion h
      next r5 heq2 =>
        split at h <;> try exact Option.noConfusion h
        next hemp =>
          injection h with h2
          injection h2 with halt h3
          injection h3 with hp hr
          subst halt hp hr
          refine ⟨?_, ?_, ?_, ?_⟩
          · have hsplit1 : rest = (rest.takeWhile (fun c => c != ']'))
                ++ (']' :: '(' :: 'f' :: 'r' :: 'a' :: 'm' :: 'e' :: 's'
                    :: '/' :: r3) := by
              conv_lhs =>
                rw [← List.takeWhile_append_dropWhile (fun c => c != ']') rest]
              rw [heq]
            have hsplit2 : r3 = (r3.takeWhile (fun c => c != ')'))
                ++ (')' :: r5) := by
              conv_lhs =>
                rw [← List.takeWhile_append_dropWhile (fun c => c != ')') r3]
              rw [heq2]
            conv_lhs => rw [hsplit1, hsplit2]
            simp [origPH, List.append_assoc]
          · intro x hx
            have h5 := List.mem_takeWhile_imp hx
            simpa using h5
          · intro x hx
            have h5 := List.mem_takeWhile_imp hx
            simpa using h5
          · intro hnil
            rw [List.isEmpty_iff] at hemp
            exact hemp hnil

theorem matchPlaceholder_length {cs alt p r : List Char}
    (h : matchPlaceholder cs = some (alt, p, r)) : r.length < cs.length := by
  have h1 := (matchPlaceholder_some h).1
  rw [h1, List.length_append]
  have h2 : 0 < (origPH alt p).length := by simp [origPH]
  omega

theorem scanAux_orig_flatten :
    ∀ (fuel : ℕ) (acc cs : List Char), cs.length ≤ fuel →
      ((scanAux fuel acc cs).map origPart).flatten = acc.reverse ++ cs := by
  intro fuel
  induction fuel with
  | zero =>
    intro acc cs hlen
    have hnil : cs = [] := List.length_eq_zero.mp (Nat.le_zero.mp hlen)
    subst hnil
    simp [scanAux, origPart]
  | succ fuel ih =>
    intro acc cs hlen
    cases cs with
    | nil => simp [scanAux, origPart]
    | cons c rest =>
      rw [scanAux]
      cases hm : matchPlaceholder (c :: rest) with
      | some x =>
        obtain ⟨alt, p, r⟩ := x
        simp only [hm]
        have hlt := matchPlaceholder_length hm
        have hr : r.length ≤ fuel := by
          simp only [List.length_cons] at hlen hlt
          omega
        rw [List.map_cons, List.map_cons, List.flatten_cons,
          List.flatten_cons, ih [] r hr]
        have hcs := (matchPlaceholder_some hm).1
        rw [hcs]
        simp [origPart, List.append_assoc]
      | none =>
        simp only [hm]
        rw [ih (c :: acc) rest (by simpa using hlen)]
        simp [List.append_assoc]

theorem scanAux_render_flatten (fs : FS) (fd : List Char) :
    ∀ (fuel : ℕ) (acc cs : List Char), cs.length ≤ fuel →
      ((scanAux fuel acc cs).map (renderPart fs fd)).flatten
        = acc.reverse ++ reSubAux fs fd fuel cs := by
  intro fuel
  induction fuel with
  | zero =>
    intro acc cs hlen
    have hnil : cs = [] := List.length_eq_zero.mp (Nat.le_zero.mp hlen)
    subst hnil
    simp [scanAux, reSubAux, renderPart]
  | succ fuel ih =>
    intro acc cs hlen
    cases cs with
    | nil => simp [scanAux, reSubAux, renderPart]
    | cons c rest =>
      rw [scanAux, reSubAux]
      cases hm : matchPlaceholder (c :: rest) with
      | some x =>
        obtain ⟨alt, p, r⟩ := x
        simp only [hm]
        have hlt := matchPlaceholder_length hm
        have hr : r.length ≤ fuel := by
          simp only [List.length_cons] at hlen hlt
          omega
        rw [List.map_cons, List.map_cons, List.flatten_cons,
          List.flatten_cons, ih [] r hr]
        simp [renderPart, List.append_assoc]
      | none =>
        simp only [hm]
        rw [ih (c :: acc) rest (by simpa using hlen)]
        simp [List.append_assoc]

/-- Claim C3: the substituted article is exactly the scanned parts of the
input article (whose original text reassembles to the article itself),
each placeholder part rendered as the inline data-URI reference with the
same alt text when the resolved file exists, and kept character for
character as the original Markdown image syntax when it does not. -/
theorem generatePreview_spec (fs : FS) (framesDir article : List Char) :
    ((scanArticle article).map origPart).flatten = article ∧
    generatePreviewSub fs framesDir article
      = ((scanArticle article).map (renderPart fs framesDir)).flatten ∧
    ∀ alt p, MdPart.ph alt p ∈ scanArticle article →
      (fs.pathExists (resolveFramePath framesDir (("frames/").data ++ p))
          = true →
        renderPart fs framesDir (MdPart.ph alt p)
          = '!' :: '[' :: alt ++ ']' :: '('
              :: ("data:image/jpeg;base64,").data
              ++ b64encode (fs.content
                  (resolveFramePath framesDir (("frames/").data ++ p)))
              ++ [')']) ∧
      (fs.pathExists (resolveFramePath framesDir (("frames/").data ++ p))
          = false →
        renderPart fs framesDir (MdPart.ph alt p) = origPH alt p) := by
  refine ⟨?_, ?_, ?_⟩
  · have h := scanAux_orig_flatten article.length [] article (le_refl _)
    simpa [scanArticle] using h
  · have h := scanAux_render_flatten fs framesDir article.length [] article
      (le_refl _)
    simp [scanArticle, generatePreviewSub]
    exact h.symm.trans (by simp)
  · intro alt p _hmem
    constructor
    · intro hex
      show replaceImage fs framesDir alt p = _
      unfold replaceImage
      rw [if_pos hex]
    · intro hnex
      show replaceImage fs framesDir alt p = _
      unfold replaceImage
      rw [if_neg ?hcond]
      case hcond =>
        rw [hnex]
        exact Bool.false_ne_true

/-- Witness: C3 on the concrete article - the f.jpg placeholder renders as
a data-URI, the g.jpg placeholder stays as the original syntax. -/
theorem generatePreview_spec_witness :
    renderPart fsTest (("dir").data)
        (MdPart.ph (("x").data) (("f.jpg").data))
      = ("![x](data:image/jpeg;base64,AQID)").data ∧
    renderPart fsTest (("dir").data)
        (MdPart.ph (("y").data) (("g.jpg").data))
      = origPH (("y").data) (("g.jpg").data) := by
  have h := generatePreview_spec fsTest (("dir").data) articleTest
  constructor
  · exact ((h.2.2 (("x").data) (("f.jpg").data) (by decide)).1
      (by decide)).trans (by decide)
  · exact (h.2.2 (("y").data) (("g.jpg").data) (by decide)).2 (by decide)

/-- Claim C4: splitting the article A-placeholder-B into display segments
drops the image chunk when frames/f.jpg is missing (leaving exactly the
two text chunks), and yields text, image, text in order when it exists. -/
theorem displayArticle_example (fs : FS) (framesDir : List Char) :
    (fs.pathExists (pyJoin framesDir (("f.jpg").data)) = false →
      displayArticle fs framesDir (("A ![x](frames/f.jpg) B").data)
        = [Chunk.text (("A ").data), Chunk.text ((" B").data)]) ∧
    (fs.pathExists (pyJoin framesDir (("f.jpg").data)) = true →
      displayArticle fs framesDir (("A ![x](frames/f.jpg) B").data)
        = [Chunk.text (("A ").data),
           Chunk.image (pyJoin framesDir (("f.jpg").data)) (("x").data),
           Chunk.text ((" B").data)]) := by
  have hsplit : reSplitPH (("A ![x](frames/f.jpg) B").data)
      = [("A ").data, ("![x](frames/f.jpg)").data, (" B").data] := by decide
  have hm1 : pyMatchImage (("A ").data) = none := by decide
  have hm2 : pyMatchImage (("![x](frames/f.jpg)").data)
      = some ((("x").data), (("f.jpg").data)) := by decide
  have hm3 : pyMatchImage ((" B").data) = none := by decide
  have ha : ¬ (pyStrip (("A ").data) = []) := by decide
  have hb : ¬ (pyStrip ((" B").data) = []) := by decide
  constructor
  · intro hex
    unfold displayArticle
    rw [hsplit]
    simp [hm1, hm2, hm3, hex, ha, hb]
  · intro hex
    unfold displayArticle
    rw [hsplit]
    simp [hm1, hm2, hm3, hex, ha, hb]

/-- Witness: C4 with a concrete filesystem for each case. -/
theorem displayArticle_example_witness :
    displayArticle fsTest (("nodir").data)
        (("A ![x](frames/f.jpg) B").data)
      = [Chunk.text (("A ").data), Chunk.text ((" B").data)] ∧
    displayArticle fsTest (("dir").data)
        (("A ![x](frames/f.jpg) B").data)
      = [Chunk.text (("A ").data),
         Chunk.image (pyJoin (("dir").data) (("f.jpg").data)) (("x").data),
         Chunk.text ((" B").data)] :=
  ⟨(displayArticle_example fsTest (("nodir").data)).1 (by decide),
   (displayArticle_example fsTest (("dir").data)).2 (by decide)⟩

theorem takeWhile_append_stop {α : Type} {q : α → Bool} {c : α}
    (hc : q c = false) (xs ys : List α) :
    (xs ++ c :: ys).takeWhile q = xs.takeWhile q := by
  induction xs with
  | nil => simp [List.takeWhile_cons, hc]
  | cons a t ih =>
    by_cases hqa : q a = true
    · simp [List.takeWhile_cons, hqa, ih]
    · simp only [Bool.not_eq_true] at hqa
      simp [List.takeWhile_cons, hqa]

theorem pyBasename_append_slash (d p : List Char) :
    pyBasename (d ++ '/' :: p) = pyBasename p := by
  unfold pyBasename
  rw [List.reverse_append, List.reverse_cons, List.append_assoc,
    List.singleton_append,
    @takeWhile_append_stop Char (fun c => c != '/') '/' (by decide)
      p.reverse d.reverse]

/-- Claim C10: placeholder resolution in the preview renderer depends only
on the final path component: the file looked up for frames/<p> is
frames_dir joined with the basename of p, leading directory components
(including those inside p) are ignored, and two placeholders whose paths
share a basename resolve to the same file, with identical replacement
output when that file exists. -/
theorem replaceImage_basename_only (fs : FS) (framesDir : List Char) :
    (∀ p, resolveFramePath framesDir (("frames/").data ++ p)
        = pyJoin framesDir (pyBasename p)) ∧
    (∀ d p, pyBasename (d ++ '/' :: p) = pyBasename p) ∧
    (∀ alt p q, pyBasename p = pyBasename q →
      resolveFramePath framesDir (("frames/").data ++ p)
          = resolveFramePath framesDir (("frames/").data ++ q) ∧
        (fs.pathExists (pyJoin framesDir (pyBasename p)) = true →
          replaceImage fs framesDir alt p = replaceImage fs framesDir alt q)) := by
  have hkey : ∀ p : List Char,
      resolveFramePath framesDir (("frames/").data ++ p)
        = pyJoin framesDir (pyBasename p) := by
    intro p
    unfold resolveFramePath
    have hfd : ("frames/").data = ("frames").data ++ '/' :: p
        → True := fun _ => trivial
    have hsplitfd : (("frames/").data ++ p)
        = ("frames").data ++ '/' :: p := by
      simp [List.append_assoc]
    rw [hsplitfd, pyBasename_append_slash]
  refine ⟨hkey, fun d p => pyBasename_append_slash d p, ?_⟩
  intro alt p q hpq
  have heq : resolveFramePath framesDir (("frames/").data ++ p)
      = resolveFramePath framesDir (("frames/").data ++ q) := by
    rw [hkey p, hkey q, hpq]
  refine ⟨heq, ?_⟩
  intro hex
  unfold replaceImage
  rw [heq]
  rw [if_pos ?hc, if_pos ?hc2]
  case hc => rw [hkey q, ← hpq]; exact hex
  case hc2 => rw [hkey q, ← hpq]; exact hex

/-- Witness: C10 with paths a/f.jpg and f.jpg sharing a basename. -/
theorem replaceImage_basename_only_witness :
    resolveFramePath (("dir").data) (("frames/").data ++ ("a/f.jpg").data)
      = resolveFramePath (("dir").data) (("frames/").data ++ ("f.jpg").data) ∧
    replaceImage fsTest (("dir").data) (("z").data) (("a/f.jpg").data)
      = replaceImage fsTest (("dir").data) (("z").data) (("f.jpg").data) :=
  ⟨((replaceImage_basename_only fsTest (("dir").data)).2.2 (("z").data)
      (("a/f.jpg").data) (("f.jpg").data) (by decide)).1,
   ((replaceImage_basename_only fsTest (("dir").data)).2.2 (("z").data)
      (("a/f.jpg").data) (("f.jpg").data) (by decide)).2 (by decide)⟩

/-- Claim C8: whatever the pipeline stages do - succeed or abort with an
error - every path at or under the temporary request directory, including
the directory itself, is gone from the filesystem state when the handler
returns. -/
theorem runConvert_cleanup (tmpDir videoName : List Char)
    (pipeline : List (List Char) → List (List Char) × Option (List Char))
    (s0 : List (List Char)) (p : List Char)
    (hp : isUnder tmpDir p = true) :
    p ∉ runConvert tmpDir videoName pipeline s0 := by
  intro hmem
  unfold runConvert rmtree at hmem
  have hpred := List.of_mem_filter hmem
  rw [hp] at hpred
  simp at hpred

/-- Witness: C8 with a concrete failing pipeline that even creates extra
files under the temporary directory. -/
theorem runConvert_cleanup_witness :
    ("/tmp/req1").data ∉
      runConvert (("/tmp/req1").data) (("v.mp4").data)
        (fun s => ((("/tmp/req1/output/frames/frame_0000_0s.jpg").data) :: s,
                   some (("boom").data)))
        [("keep.txt").data] :=
  runConvert_cleanup (("/tmp/req1").data) (("v.mp4").data)
    (fun s => ((("/tmp/req1/output/frames/frame_0000_0s.jpg").data) :: s,
               some (("boom").data)))
    [("keep.txt").data] (("/tmp/req1").data) (by decide)

end VideoToArticle
